import Mathlib

/-!
Verification of the ETL_Parser mapping-to-SQL compiler.

This file is a shallow embedding, in Lean 4, of the core of the
repository: the mapping loader (`src/mapping_parser.py`), the SQL query
synthesizer (`src/sql_generator.py`) and the validation orchestrator
(`src/etl_validator.py`).  Pandas data frames are modelled as a header
list together with rows of optional string cells (a `none` cell models a
NaN/null value, which is what pandas produces for an empty cell of a
CSV or spreadsheet file); Python dicts keyed by strings are modelled as
association lists with in-place update; raising `ValueError` is modelled
with `Except String`.
-/

namespace ETL

/-- Whitespace characters recognised by Python's `str.split()` and
`str.strip()` on ASCII text. -/
def isPySpace (c : Char) : Bool :=
  c = ' ' || c = '\t' || c = '\n' || c = '\r' || c = '\x0b' || c = '\x0c'

/-- Python `str.strip()`: drop leading and trailing whitespace. -/
def pyStrip (s : String) : String :=
  ⟨((s.data.dropWhile isPySpace).reverse.dropWhile isPySpace).reverse⟩

/-- Truthiness of an optional string cell, as Python `bool()`:
`None` and the empty string are falsy. -/
def truthy : Option String → Bool
  | none => false
  | some s => s ≠ ""

/-- Python `a or b` on optional string cells: the first operand when
truthy, otherwise the second operand. -/
def pyOr (a b : Option String) : Option String :=
  if truthy a then a else b

/-- Python `sep.join(items)`. -/
def joinWith (sep : String) : List String → String
  | [] => ""
  | [x] => x
  | x :: y :: xs => x ++ sep ++ joinWith sep (y :: xs)

/-- Helper for `pySplitWs`: accumulate the current word (in reverse). -/
def splitWsAux : List Char → List Char → List String
  | [], acc => if acc.isEmpty then [] else [⟨acc.reverse⟩]
  | c :: rest, acc =>
    if isPySpace c then
      if acc.isEmpty then splitWsAux rest [] else ⟨acc.reverse⟩ :: splitWsAux rest []
    else
      splitWsAux rest (c :: acc)

/-- Python `str.split()` with no argument: split on runs of whitespace,
producing no empty pieces. -/
def pySplitWs (s : String) : List String := splitWsAux s.data []

/-- Lexicographic comparison of character lists by code point, the order
Python's `sorted` uses on strings. -/
def lexLe : List Char → List Char → Bool
  | [], _ => true
  | _ :: _, [] => false
  | a :: as, b :: bs =>
    if a.toNat < b.toNat then true
    else if b.toNat < a.toNat then false
    else lexLe as bs

/-- String comparison by code point, as Python's `sorted`. -/
def strLeB (a b : String) : Bool := lexLe a.data b.data

/-- Insert a string into a sorted list of strings. -/
def insertSorted (x : String) : List String → List String
  | [] => [x]
  | y :: ys => if strLeB x y then x :: y :: ys else y :: insertSorted x ys

/-- Sorting of a list of strings as Python `sorted` (insertion sort by
code-point order). -/
def sortStrings : List String → List String
  | [] => []
  | x :: xs => insertSorted x (sortStrings xs)

/-- Python `sorted(list(set(l)))`: the sorted distinct elements. -/
def sortedDistinct (l : List String) : List String :=
  sortStrings l.dedup

/-- Substring relation on strings: `pat` occurs contiguously in `s`. -/
def containsSub (s pat : String) : Prop :=
  ∃ a b : String, s = a ++ pat ++ b

/-- Boolean test that `pat` starts the list `l`. -/
def startsChars : List Char → List Char → Bool
  | [], _ => true
  | _ :: _, [] => false
  | a :: as, b :: bs => a = b && startsChars as bs

/-- Boolean substring test on character lists. -/
def containsChars (pat : List Char) : List Char → Bool
  | [] => pat.isEmpty
  | c :: rest => startsChars pat (c :: rest) || containsChars pat rest

/-- Executable substring test on strings. -/
def containsB (s pat : String) : Bool := containsChars pat.data s.data

/-! ### Mapping entries and the data-frame model -/

/-- One row of a parsed mapping document, as the dictionary
`df.to_dict('records')` produces it in `MappingParser.parse` (after the
NaN-to-None cleanup): each relevant field is an optional string cell.
The generator reads the fields `source_column`, `target_column`,
`transformation` and the key flags `is_key` / `join_key`. -/
structure Mapping where
  source_column : Option String
  target_column : Option String
  transformation : Option String
  is_key : Option String
  join_key : Option String
deriving DecidableEq

/-- A pandas data frame as `pd.read_csv` / `pd.read_excel` deliver it to
`MappingParser.validate_format`: a list of header names and the rows,
each row holding one optional cell per header (in header order; `none`
models NaN).  Headers are assumed distinct after cleaning, which is what
pandas' reader guarantees by mangling duplicate column names. -/
structure DataFrame where
  columns : List String
  rows : List (List (Option String))
deriving DecidableEq

/-- Pandas `df.empty`: some axis has length zero. -/
def DataFrame.isEmptyDF (df : DataFrame) : Bool :=
  df.rows.isEmpty || df.columns.isEmpty

/-- Python `str.lower()` on one ASCII character. -/
def pyLowerChar (c : Char) : Char :=
  if 65 ≤ c.toNat ∧ c.toNat ≤ 90 then Char.ofNat (c.toNat + 32) else c

/-- Python `str.lower()` (ASCII). -/
def pyToLower (s : String) : String := ⟨s.data.map pyLowerChar⟩

/-- The cleaned header names: `df.columns.str.strip().str.lower()`. -/
def cleanColumns (df : DataFrame) : List String :=
  df.columns.map (fun c => pyToLower (pyStrip c))

/-- Label-based cell access `row.get(name)` against a header list. -/
def cellGet (cols : List String) (row : List (Option String)) (name : String) :
    Option String :=
  match (cols.zip row).find? (fun p => p.1 = name) with
  | some p => p.2
  | none => none

/-- `MappingParser.REQUIRED_COLUMNS`, with the fixed iteration order this
model gives the Python set. -/
def REQUIRED_COLUMNS : List String :=
  ["source_column", "target_column", "transformation"]

/-- Error message of `validate_format` for an empty data frame. -/
def emptyFileMsg : String :=
  "❌ File is empty. Please provide a mapping file with data."

/-- A row with a null value in one of the three required fields, as
`validate_format` scans for them. -/
def nullRow (cols : List String) (row : List (Option String)) : Bool :=
  (cellGet cols row "source_column").isNone ||
  (cellGet cols row "target_column").isNone ||
  (cellGet cols row "transformation").isNone

/-- `MappingParser.validate_format`: the ordered structural checks on the
data frame, returning `(is_valid, error_message)`. -/
def validate_format (df : DataFrame) : Bool × String :=
  if df.isEmptyDF then
    (false, emptyFileMsg)
  else
    let cols := cleanColumns df
    let missing := REQUIRED_COLUMNS.filter (fun c => !(cols.contains c))
    if !missing.isEmpty then
      let missingStr := joinWith ", " (sortStrings missing)
      let availableStr :=
        if cols.isEmpty then "none" else joinWith ", " (sortedDistinct cols)
      (false, "❌ Missing required columns: " ++ missingStr ++
        "\n\n📋 Expected columns: source_column, target_column, transformation" ++
        "\n\n📊 Found columns: " ++ availableStr)
    else
      match REQUIRED_COLUMNS.find?
          (fun c => df.rows.all (fun row => (cellGet cols row c).isNone)) with
      | some c =>
        (false, "❌ Column \x27" ++ c ++
          "\x27 is empty. All required columns must have at least some data.")
      | none =>
        let emptyRows := df.rows.countP (nullRow cols)
        if emptyRows > 0 then
          (false, "❌ Found " ++ toString emptyRows ++
            " row(s) with missing required data (source_column, target_column, or transformation). Please fill in all required fields.")
        else
          (true, "")

/-- One record of `df.to_dict('records')` restricted to the fields the
rest of the pipeline reads, after the NaN-to-None cleanup. -/
def rowToMapping (cols : List String) (row : List (Option String)) : Mapping :=
  { source_column := cellGet cols row "source_column"
    target_column := cellGet cols row "target_column"
    transformation := cellGet cols row "transformation"
    is_key := cellGet cols row "is_key"
    join_key := cellGet cols row "join_key" }

/-- `MappingParser.parse` from the point where the tabular file has been
read into a data frame: validate, then materialize one mapping record
per row; a failed validation raises `ValueError` with the validation
message. -/
def parse (df : DataFrame) : Except String (List Mapping) :=
  let v := validate_format df
  if v.1 then
    .ok (df.rows.map (rowToMapping (cleanColumns df)))
  else
    .error v.2

/-! ### Derived views of a loaded mapping set (`mapping_parser.py`) -/

/-- `MappingParser.get_source_columns`: sorted distinct truthy source
column names. -/
def get_source_columns (mappings : List Mapping) : List String :=
  sortedDistinct (mappings.filterMap (fun m =>
    if truthy m.source_column then some (m.source_column.getD "") else none))

/-- `MappingParser.get_target_columns`: sorted distinct truthy target
column names. -/
def get_target_columns (mappings : List Mapping) : List String :=
  sortedDistinct (mappings.filterMap (fun m =>
    if truthy m.target_column then some (m.target_column.getD "") else none))

/-- In-place update of a Python dict modelled as an association list:
replace the value at an existing key, else append the new pair. -/
def dictUpsert (l : List (String × String)) (k v : String) :
    List (String × String) :=
  if l.any (fun p => p.1 == k) then
    l.map (fun p => bif p.1 == k then (k, v) else p)
  else
    l ++ [(k, v)]

/-- `MappingParser.get_transformations`: for each mapping whose target
column and transformation are both truthy, set
`transformations[target] = transformation`. -/
def get_transformations (mappings : List Mapping) : List (String × String) :=
  mappings.foldl (fun d m =>
    if truthy m.target_column && truthy m.transformation then
      dictUpsert d (m.target_column.getD "") (m.transformation.getD "")
    else d) []

/-- Python word characters (`\w` on ASCII text). -/
def isWordChar (c : Char) : Bool := c.isAlphanum || c = '_'

/-- The scan of `re.findall(r'(\w+)\.', s)`, carried out left to right
with `acc` holding (reversed) the run of word characters read since the
last non-word character: a word character extends the run; a dot ends a
non-empty run and captures it (the scan resuming after the dot with an
empty run, as the regex match consumes the dot); any other character
discards the run. -/
def scanRefs : List Char → List Char → List String
  | [], _ => []
  | c :: rest, acc =>
    if isWordChar c then
      scanRefs rest (c :: acc)
    else if c = '.' then
      if acc.isEmpty then scanRefs rest []
      else (⟨acc.reverse⟩ : String) :: scanRefs rest []
    else
      scanRefs rest []

/-- All captures of `re.findall(r'(\w+)\.', s)` over the characters of
`s`, in order: each maximal run of word characters that is immediately
followed by a dot. -/
def findTableRefs (l : List Char) : List String := scanRefs l []

/-- `MappingParser.extract_source_tables`: union the regex captures over
every truthy transformation string, then return the sorted distinct
set. -/
def extract_source_tables (mappings : List Mapping) : List String :=
  sortedDistinct (mappings.foldl (fun acc m =>
    match m.transformation with
    | some t => if t ≠ "" then acc ++ findTableRefs t.data else acc
    | none => acc) [])

/-! ### The SQL generator (`sql_generator.py`) -/

/-- `SQLGenerator._clean_transformation`: a falsy expression becomes the
empty string, otherwise extra whitespace is removed by
`' '.join(transformation.split())`. -/
def clean_transformation (transformation : Option String) : String :=
  match transformation with
  | none => ""
  | some s => if s = "" then "" else joinWith " " (pySplitWs s)

/-- One item of the SELECT list built by
`SQLGenerator._build_select_clause` for one mapping, `none` when the
mapping is skipped for lack of a truthy target column. -/
def selectItem (source_table : String) (m : Mapping) : Option String :=
  if !(truthy m.target_column) then
    none
  else if truthy m.transformation && pyStrip (m.transformation.getD "") != "" then
    some ("    " ++ clean_transformation m.transformation ++ " AS " ++
      m.target_column.getD "")
  else if truthy m.source_column then
    some ("    " ++ source_table ++ "." ++ m.source_column.getD "" ++ " AS " ++
      m.target_column.getD "")
  else
    some ("    NULL AS " ++ m.target_column.getD "")

/-- `SQLGenerator._build_select_clause` (its `target_table` parameter is
unused in the source, and is omitted here): the kept items joined with
comma-newline. -/
def build_select_clause (mappings : List Mapping) (source_table : String) :
    String :=
  joinWith ",\n" (mappings.filterMap (selectItem source_table))

/-- `SQLGenerator._get_join_keys`: the target (or else source) column of
every mapping with a truthy `is_key` or `join_key` cell; when none is
marked, the first mapping's target/source column as the single default
key. -/
def get_join_keys (mappings : List Mapping) : List String :=
  let keys := mappings.filterMap (fun m =>
    if truthy m.is_key || truthy m.join_key then
      let kc := pyOr m.target_column m.source_column
      if truthy kc then some (kc.getD "") else none
    else none)
  match keys, mappings with
  | [], m :: _ =>
    let kc := pyOr m.target_column m.source_column
    if truthy kc then [kc.getD ""] else []
  | ks, _ => ks

/-- `SQLGenerator._generate_join_condition`: AND-joined equalities over
the key columns, or the always-true condition for an empty key list. -/
def generate_join_condition (alias1 alias2 : String) (keys : List String) :
    String :=
  if keys.isEmpty then "1=1"
  else joinWith " AND " (keys.map (fun k =>
    alias1 ++ "." ++ k ++ " = " ++ alias2 ++ "." ++ k))

/-- Table-name qualification used by both query generators:
`f"{schema}.{table}" if schema else table`. -/
def fullTableName (schema : Option String) (name : String) : String :=
  if truthy schema then schema.getD "" ++ "." ++ name else name

/-- The first join key, `join_keys[0] if join_keys else 'id'`. -/
def firstKeyOrId (keys : List String) : String :=
  match keys with
  | [] => "id"
  | k :: _ => k

/-- The EXCEPT block of the source-minus-target direction, source
operand first. -/
def exceptSMT : String :=
  "SELECT * FROM source_transformed\n  EXCEPT\n  SELECT * FROM target_data"

/-- The EXCEPT block of the target-minus-source direction, target
operand first. -/
def exceptTMS : String :=
  "SELECT * FROM target_data\n  EXCEPT\n  SELECT * FROM source_transformed"

/-- `SQLGenerator.generate_source_minus_target`: the full query text of
the source-minus-target direction, as the Python f-string template
renders it. -/
def generate_source_minus_target (mappings : List Mapping)
    (source_table target_table : String)
    (source_schema target_schema : Option String) : String :=
  let source_full := fullTableName source_schema source_table
  let target_full := fullTableName target_schema target_table
  let select_clause := build_select_clause mappings source_table
  let join_keys := get_join_keys mappings
  "-- Source MINUS Target Validation Query\n" ++
  "-- This query shows records that exist in source but not in target after transformation\n" ++
  "\nWITH " ++ "source_transformed" ++ " AS (\n  SELECT\n" ++
  select_clause ++
  "\n  FROM " ++ source_full ++ " " ++ source_table ++ "\n),\n" ++
  "target_data" ++ " AS (\n  SELECT *\n  FROM " ++ target_full ++
  "\n)\nSELECT \n  \x27" ++ "SOURCE_MINUS_TARGET" ++
  "\x27 AS validation_type,\n  COUNT(*) AS record_count\nFROM (\n  " ++
  exceptSMT ++
  "\n) diff\nUNION ALL\nSELECT \n  \x27DETAIL\x27 AS validation_type,\n  NULL AS record_count\nFROM (\n  " ++
  exceptSMT ++
  "\n) diff\nLIMIT 100;  -- Show first 100 discrepancies\n\n" ++
  "-- Alternative using LEFT JOIN for databases that don\x27t support EXCEPT:\n/*\nSELECT \n  s.*,\n  \x27Missing in Target\x27 AS issue\nFROM source_transformed s\nLEFT JOIN target_data t\n" ++
  "  ON " ++ generate_join_condition "s" "t" join_keys ++
  "\nWHERE t." ++ firstKeyOrId join_keys ++ " IS NULL;\n*/\n"

/-- `SQLGenerator.generate_target_minus_source`: the full query text of
the target-minus-source direction, as the Python f-string template
renders it. -/
def generate_target_minus_source (mappings : List Mapping)
    (source_table target_table : String)
    (source_schema target_schema : Option String) : String :=
  let source_full := fullTableName source_schema source_table
  let target_full := fullTableName target_schema target_table
  let select_clause := build_select_clause mappings source_table
  let join_keys := get_join_keys mappings
  "-- Target MINUS Source Validation Query\n" ++
  "-- This query shows records that exist in target but not in transformed source\n" ++
  "\nWITH " ++ "source_transformed" ++ " AS (\n  SELECT\n" ++
  select_clause ++
  "\n  FROM " ++ source_full ++ " " ++ source_table ++ "\n),\n" ++
  "target_data" ++ " AS (\n  SELECT *\n  FROM " ++ target_full ++
  "\n)\nSELECT \n  \x27" ++ "TARGET_MINUS_SOURCE" ++
  "\x27 AS validation_type,\n  COUNT(*) AS record_count\nFROM (\n  " ++
  exceptTMS ++
  "\n) diff\nUNION ALL\nSELECT \n  \x27DETAIL\x27 AS validation_type,\n  NULL AS record_count\nFROM (\n  " ++
  exceptTMS ++
  "\n) diff\nLIMIT 100;  -- Show first 100 discrepancies\n\n" ++
  "-- Alternative using LEFT JOIN for databases that don\x27t support EXCEPT:\n/*\nSELECT \n  t.*,\n  \x27Missing in Source\x27 AS issue\nFROM target_data t\nLEFT JOIN source_transformed s\n" ++
  "  ON " ++ generate_join_condition "t" "s" join_keys ++
  "\nWHERE s." ++ firstKeyOrId join_keys ++ " IS NULL;\n*/\n"

/-- Comment header of `SQLGenerator.generate_complete_validation`. -/
def completeHeader : String :=
  "-- Complete Bidirectional Validation Query\n-- Generated from ETL Mapping Document\n\n"

/-- Separator comment between the two directions in
`SQLGenerator.generate_complete_validation`. -/
def completeSep : String :=
  "\n\n-- ========================================\n\n"

/-- `SQLGenerator.generate_complete_validation`: both directions
concatenated, with a header comment and a separator comment. -/
def generate_complete_validation (mappings : List Mapping)
    (source_table target_table : String)
    (source_schema target_schema : Option String) : String :=
  completeHeader ++
  generate_source_minus_target mappings source_table target_table source_schema target_schema ++
  completeSep ++
  generate_target_minus_source mappings source_table target_table source_schema target_schema ++
  "\n"

/-! ### The orchestrator (`etl_validator.py`) -/

/-- The summary dictionary `ETLValidator.get_mapping_summary` returns for
a non-empty mapping list. -/
structure Summary where
  total_mappings : Nat
  source_columns : List String
  target_columns : List String
  transformations : List (String × String)
  detected_source_tables : List String
deriving DecidableEq

/-- The state of an `ETLValidator`: the loaded mappings (empty before a
load) and the generator, present exactly after a successful
`load_mappings`. -/
structure Validator where
  mappings : List Mapping
  generator : Option (List Mapping)
deriving DecidableEq

/-- A freshly constructed `ETLValidator`: nothing loaded yet. -/
def Validator.init : Validator := ⟨[], none⟩

/-- `ETLValidator.load_mappings`: parse the document and bind a generator
to the result; a `ValueError` of the parser propagates. -/
def load_mappings (df : DataFrame) : Except String Validator :=
  match parse df with
  | .ok ms => .ok ⟨ms, some ms⟩
  | .error e => .error e

/-- Message of the `ValueError` that `generate_validation_queries` raises
before a successful load. -/
def notLoadedMsg : String := "Mappings not loaded. Call load_mappings() first."

/-- `ETLValidator.generate_validation_queries`: the ordered dictionary of
generated queries, or the not-loaded error. -/
def Validator.generate_validation_queries (v : Validator)
    (source_table target_table : String)
    (source_schema target_schema : Option String)
    (query_type : String) : Except String (List (String × String)) :=
  match v.generator with
  | none => .error notLoadedMsg
  | some ms =>
    let q1 :=
      if query_type == "both" || query_type == "source_minus_target" then
        [("source_minus_target",
          generate_source_minus_target ms source_table target_table source_schema target_schema)]
      else []
    let q2 :=
      if query_type == "both" || query_type == "target_minus_source" then
        [("target_minus_source",
          generate_target_minus_source ms source_table target_table source_schema target_schema)]
      else []
    let q3 :=
      if query_type == "both" then
        [("complete",
          generate_complete_validation ms source_table target_table source_schema target_schema)]
      else []
    .ok (q1 ++ q2 ++ q3)

/-- `ETLValidator.get_mapping_summary`: an empty structure (`none`) when
nothing is loaded, else the summary of the loaded mappings.  The method
cannot raise, which the always-`ok` result records. -/
def Validator.get_mapping_summary (v : Validator) :
    Except String (Option Summary) :=
  .ok (if v.mappings.isEmpty then none
    else some
      { total_mappings := v.mappings.length
        source_columns := get_source_columns v.mappings
        target_columns := get_target_columns v.mappings
        transformations := get_transformations v.mappings
        detected_source_tables := extract_source_tables v.mappings })

/-! ### Lemmas about the substring relation -/

theorem containsSub_self (s : String) : containsSub s s :=
  ⟨"", "", by rw [String.append_empty, String.empty_append]⟩

theorem containsSub_appL (t : String) {s pat : String}
    (h : containsSub s pat) : containsSub (t ++ s) pat := by
  obtain ⟨a, b, rfl⟩ := h
  exact ⟨t ++ a, b, by simp [String.append_assoc]⟩

theorem containsSub_appR (t : String) {s pat : String}
    (h : containsSub s pat) : containsSub (s ++ t) pat := by
  obtain ⟨a, b, rfl⟩ := h
  exact ⟨a, b ++ t, by simp [String.append_assoc]⟩

theorem containsSub_trans {s t pat : String}
    (h1 : containsSub s t) (h2 : containsSub t pat) : containsSub s pat := by
  obtain ⟨a, b, rfl⟩ := h1
  obtain ⟨c, d, rfl⟩ := h2
  exact ⟨a ++ c, d ++ b, by simp [String.append_assoc]⟩

theorem mem_joinWith (sep : String) {l : List String} {x : String}
    (h : x ∈ l) : containsSub (joinWith sep l) x := by
  induction l with
  | nil => cases h
  | cons y ys ih =>
    cases ys with
    | nil =>
      rw [List.mem_singleton] at h
      subst h
      exact containsSub_self _
    | cons z zs =>
      rcases List.mem_cons.mp h with rfl | hmem
      · exact ⟨"", sep ++ joinWith sep (z :: zs),
          by simp [joinWith, String.append_assoc, String.empty_append]⟩
      · have h2 := containsSub_appL (y ++ sep) (ih hmem)
        simpa only [joinWith, String.append_assoc] using h2

theorem startsChars_sound {pat l : List Char}
    (h : startsChars pat l = true) : ∃ b, l = pat ++ b := by
  induction pat generalizing l with
  | nil => exact ⟨l, rfl⟩
  | cons a as ih =>
    cases l with
    | nil => simp [startsChars] at h
    | cons b bs =>
      simp only [startsChars, Bool.and_eq_true, decide_eq_true_eq] at h
      obtain ⟨rfl, h2⟩ := h
      obtain ⟨c, hc⟩ := ih h2
      exact ⟨c, by rw [hc]; rfl⟩

theorem containsChars_sound {pat l : List Char}
    (h : containsChars pat l = true) : ∃ a b, l = a ++ pat ++ b := by
  induction l with
  | nil =>
    simp only [containsChars, List.isEmpty_iff] at h
    exact ⟨[], [], by simp [h]⟩
  | cons c rest ih =>
    simp only [containsChars, Bool.or_eq_true] at h
    rcases h with h | h
    · obtain ⟨b, hb⟩ := startsChars_sound h
      exact ⟨[], b, by simp [hb]⟩
    · obtain ⟨a, b, hab⟩ := ih h
      exact ⟨c :: a, b, by simp [hab]⟩

theorem containsSub_of_containsB {s pat : String}
    (h : containsB s pat = true) : containsSub s pat := by
  obtain ⟨a, b, hab⟩ := containsChars_sound h
  refine ⟨⟨a⟩, ⟨b⟩, String.ext ?_⟩
  simp only [String.data_append]
  exact hab

theorem startsChars_append (pat b : List Char) :
    startsChars pat (pat ++ b) = true := by
  induction pat with
  | nil => rfl
  | cons a as ih => simp [startsChars, ih]

theorem containsChars_append_self (pat b : List Char) :
    containsChars pat (pat ++ b) = true := by
  cases pat with
  | nil =>
    cases b with
    | nil => rfl
    | cons c cs => simp [containsChars, startsChars]
  | cons p ps =>
    simp only [List.cons_append, containsChars, Bool.or_eq_true]
    exact Or.inl (startsChars_append (p :: ps) b)

theorem containsChars_append_left (pat a l : List Char)
    (h : containsChars pat l = true) : containsChars pat (a ++ l) = true := by
  induction a with
  | nil => simpa using h
  | cons c cs ih =>
    simp only [List.cons_append, containsChars, Bool.or_eq_true]
    exact Or.inr ih

theorem containsB_of_containsSub {s pat : String}
    (h : containsSub s pat) : containsB s pat = true := by
  obtain ⟨a, b, rfl⟩ := h
  unfold containsB
  simp only [String.data_append, List.append_assoc]
  exact containsChars_append_left _ _ _ (containsChars_append_self _ _)

theorem containsSub_tail2 (x y z : String) : containsSub ((x ++ y) ++ z) (y ++ z) :=
  ⟨x, "", by simp [String.append_assoc]⟩

/-! ### Claim theorems -/

/-- Claim C5: for every mapping set and any table names, the
source-minus-target query contains the literal label
`SOURCE_MINUS_TARGET` and the CTE names `source_transformed` and
`target_data`, with the EXCEPT taking `source_transformed` minus
`target_data`; the target-minus-source query contains
`TARGET_MINUS_SOURCE`, the same CTE names, and the EXCEPT operands in
the swapped order. -/
theorem C5_direction_labels_and_except_order (ms : List Mapping)
    (st tt : String) (ss ts : Option String) :
    containsSub (generate_source_minus_target ms st tt ss ts) "SOURCE_MINUS_TARGET" ∧
    containsSub (generate_source_minus_target ms st tt ss ts) "source_transformed" ∧
    containsSub (generate_source_minus_target ms st tt ss ts)
      "SELECT * FROM source_transformed\n  EXCEPT\n  SELECT * FROM target_data" ∧
    containsSub (generate_target_minus_source ms st tt ss ts) "TARGET_MINUS_SOURCE" ∧
    containsSub (generate_target_minus_source ms st tt ss ts) "target_data" ∧
    containsSub (generate_target_minus_source ms st tt ss ts)
      "SELECT * FROM target_data\n  EXCEPT\n  SELECT * FROM source_transformed" ∧
    containsSub (generate_source_minus_target ms st tt ss ts) "target_data" ∧
    containsSub (generate_target_minus_source ms st tt ss ts) "source_transformed" := by
  refine ⟨?_, ?_, ?_, ?_, ?_, ?_, ?_, ?_⟩
  · simp only [generate_source_minus_target]
    iterate 11 apply containsSub_appR
    apply containsSub_appL
    exact containsSub_self _
  · simp only [generate_source_minus_target]
    iterate 23 apply containsSub_appR
    apply containsSub_appL
    exact containsSub_self _
  · simp only [generate_source_minus_target]
    iterate 9 apply containsSub_appR
    apply containsSub_appL
    exact containsSub_self _
  · simp only [generate_target_minus_source]
    iterate 11 apply containsSub_appR
    apply containsSub_appL
    exact containsSub_self _
  · simp only [generate_target_minus_source]
    iterate 15 apply containsSub_appR
    apply containsSub_appL
    exact containsSub_self _
  · simp only [generate_target_minus_source]
    iterate 9 apply containsSub_appR
    apply containsSub_appL
    exact containsSub_self _
  · simp only [generate_source_minus_target]
    iterate 15 apply containsSub_appR
    apply containsSub_appL
    exact containsSub_self _
  · simp only [generate_target_minus_source]
    iterate 23 apply containsSub_appR
    apply containsSub_appL
    exact containsSub_self _

/-- A concrete one-mapping set used for the negative half of claim C6:
one direct mapping of source column `a` to target column `b`. -/
def c6Mappings : List Mapping := [⟨some "a", some "b", none, none, none⟩]

set_option maxRecDepth 40000 in
/-- Claim C6: schema qualification is applied independently to the two
table names — a rendered full name is `schema.name` when the schema is
supplied and bare `name` otherwise; with `sourceSchema = "s1"` and no
target schema the output contains `s1.<sourceTable>`, and (on a concrete
instance with distinct identifiers) no schema-qualified form of the
target table, i.e. no occurrence of `.tgt` at all. -/
theorem C6_schema_qualification (ms : List Mapping) (st tt nm s : String) :
    (s ≠ "" → fullTableName (some s) nm = s ++ "." ++ nm) ∧
    (fullTableName none nm = nm) ∧
    containsSub (generate_source_minus_target ms st tt (some "s1") none) ("s1." ++ st) ∧
    containsSub (generate_target_minus_source ms st tt (some "s1") none) ("s1." ++ st) ∧
    ¬ containsSub (generate_source_minus_target c6Mappings "src" "tgt" (some "s1") none) ".tgt" ∧
    ¬ containsSub (generate_target_minus_source c6Mappings "src" "tgt" (some "s1") none) ".tgt" := by
  have hf : fullTableName (some "s1") st = "s1." ++ st := by
    have h1 : ("s1" : String) ++ "." = "s1." := by decide
    simp [fullTableName, truthy, ← h1, String.append_assoc]
  refine ⟨?_, ?_, ?_, ?_, ?_, ?_⟩
  · intro hs
    simp [fullTableName, truthy, hs]
  · simp [fullTableName, truthy]
  · simp only [generate_source_minus_target]
    iterate 19 apply containsSub_appR
    apply containsSub_appL
    rw [hf]
    exact containsSub_self _
  · simp only [generate_target_minus_source]
    iterate 19 apply containsSub_appR
    apply containsSub_appL
    rw [hf]
    exact containsSub_self _
  · intro h
    exact absurd (containsB_of_containsSub h) (by decide)
  · intro h
    exact absurd (containsB_of_containsSub h) (by decide)

/-- Modelled from the claim's words for C8, as stated: an entry is
marked as a key exactly when its `isKey` flag (the `is_key` cell) is
truthy. -/
def claimKeyFlag (m : Mapping) : Bool := truthy m.is_key

/-- The marking the code actually applies, adopted by the amended claim
C8: an entry is marked when either of its key cells is truthy, as in
`mapping.get('is_key') or mapping.get('join_key')`. -/
def eitherKeyFlag (m : Mapping) : Bool := truthy m.is_key || truthy m.join_key

/-- Modelled from the claim's words for C8: the collected key column of
one entry — its target column if present, otherwise its source
column. -/
def claimKeyCol (m : Mapping) : Option String :=
  if truthy m.target_column then m.target_column
  else if truthy m.source_column then m.source_column
  else none

/-- The join-key list of claim C8 as stated: the key columns of the
entries whose `isKey` flag is truthy; when no entry is so marked, the
first entry's target (or source) column as the single default key. -/
def claimJoinKeysStated (mappings : List Mapping) : List String :=
  let marked := (mappings.filter claimKeyFlag).filterMap claimKeyCol
  if marked.isEmpty then
    match mappings.head? with
    | some m => (claimKeyCol m).toList
    | none => []
  else marked

/-- The join-key list of the amended claim C8: the key columns of the
entries marked through either key cell; the same fallback to the first
entry when none is marked. -/
def claimJoinKeysAmended (mappings : List Mapping) : List String :=
  let marked := (mappings.filter eitherKeyFlag).filterMap claimKeyCol
  if marked.isEmpty then
    match mappings.head? with
    | some m => (claimKeyCol m).toList
    | none => []
  else marked

/-- The counterexample document for claim C8: two complete rows (every
required field non-null, so the load succeeds) where only the second
row carries a truthy `join_key` cell and no row carries an `is_key`
value. -/
def c8Df : DataFrame :=
  ⟨["source_column", "target_column", "transformation", "is_key", "join_key"],
   [[some "a", some "b", some "f", none, none],
    [some "k", some "kk", some "g", none, some "y"]]⟩

/-- The mapping set `c8Df` loads into. -/
def c8Mappings : List Mapping :=
  [⟨some "a", some "b", some "f", none, none⟩,
   ⟨some "k", some "kk", some "g", none, some "y"⟩]

theorem truthy_some_getD {o : Option String} (h : truthy o = true) :
    some (o.getD "") = o := by
  cases o with
  | none => simp [truthy] at h
  | some s => rfl

/-- Counterexample to claim C8 as stated: on a loadable mapping set
where only a `join_key` cell (never `is_key`) marks the second entry,
the code collects that entry's target column, while the claim's
isKey-only rule finds no marked entry and falls back to the first
entry's target column. -/
theorem C8_counterexample :
    parse c8Df = .ok c8Mappings ∧
    get_join_keys c8Mappings = ["kk"] ∧
    claimJoinKeysStated c8Mappings = ["b"] ∧
    get_join_keys c8Mappings ≠ claimJoinKeysStated c8Mappings := by
  have hval : validate_format c8Df = (true, "") := by decide
  have hmap : c8Df.rows.map (rowToMapping (cleanColumns c8Df)) = c8Mappings := by
    decide
  refine ⟨?_, by decide, by decide, by decide⟩
  simp only [parse, hval]
  rw [hmap]
  simp

/-- Claim C8 (amended: an entry is marked when either its `is_key` or
its `join_key` cell is truthy, as the code tests both): join-key
inference collects, from every marked entry, the target column if
present and otherwise the source column; with no marked entry the
first entry's target/source column is the single default key; the list
drives an AND-joined equality condition in the commented LEFT-JOIN
fallback, and an empty key list yields the always-true condition. -/
theorem C8_join_keys_amended (ms : List Mapping) (a b : String)
    (keys : List String) (st tt : String) (ss ts : Option String) :
    get_join_keys ms = claimJoinKeysAmended ms ∧
    (keys ≠ [] → generate_join_condition a b keys =
      joinWith " AND " (keys.map (fun k => a ++ "." ++ k ++ " = " ++ b ++ "." ++ k))) ∧
    generate_join_condition a b [] = "1=1" ∧
    containsSub (generate_source_minus_target ms st tt ss ts)
      ("  ON " ++ generate_join_condition "s" "t" (get_join_keys ms)) ∧
    containsSub (generate_target_minus_source ms st tt ss ts)
      ("  ON " ++ generate_join_condition "t" "s" (get_join_keys ms)) := by
  have hcol : ∀ m : Mapping,
      (if truthy (pyOr m.target_column m.source_column) then
        some ((pyOr m.target_column m.source_column).getD "") else none) =
      claimKeyCol m := by
    intro m
    unfold claimKeyCol pyOr
    by_cases ht : truthy m.target_column
    · simp only [ht, if_true]
      exact truthy_some_getD ht
    · simp only [ht, Bool.false_eq_true, if_false]
      by_cases hs : truthy m.source_column
      · simp only [hs, if_true]
        exact truthy_some_getD hs
      · simp only [hs, Bool.false_eq_true, if_false]
  have hkeys : ms.filterMap (fun m =>
      if truthy m.is_key || truthy m.join_key then
        if truthy (pyOr m.target_column m.source_column) then
          some ((pyOr m.target_column m.source_column).getD "") else none
      else none) = (ms.filter eitherKeyFlag).filterMap claimKeyCol := by
    rw [List.filterMap_filter]
    apply List.filterMap_congr
    intro m _
    by_cases hk : eitherKeyFlag m
    · have hk2 : (truthy m.is_key || truthy m.join_key) = true := hk
      simp [eitherKeyFlag, hk2, hcol m]
    · have hk2 : (truthy m.is_key || truthy m.join_key) = false := by
        simpa [eitherKeyFlag] using hk
      simp [eitherKeyFlag, hk2]
  refine ⟨?_, ?_, ?_, ?_, ?_⟩
  · unfold get_join_keys claimJoinKeysAmended
    simp only [hkeys]
    cases hmk : (ms.filter eitherKeyFlag).filterMap claimKeyCol with
    | nil =>
      cases ms with
      | nil => simp
      | cons m rest =>
        simp only [List.isEmpty_nil, if_true, List.head?_cons]
        rw [← hcol m]
        by_cases ht : truthy (pyOr m.target_column m.source_column)
        · simp [ht]
        · simp [ht]
    | cons k ks =>
      simp only [List.isEmpty_cons, Bool.false_eq_true, if_false]
  · intro h
    simp [generate_join_condition, List.isEmpty_iff, h]
  · rfl
  · simp only [generate_source_minus_target]
    iterate 3 apply containsSub_appR
    exact containsSub_tail2 _ _ _
  · simp only [generate_target_minus_source]
    iterate 3 apply containsSub_appR
    exact containsSub_tail2 _ _ _

/-- Modelled from the claim's words for C2, as stated: skip entries
whose target column is empty; emit the whitespace-normalized
transformation followed by an AS alias when the transformation is
non-empty; else the aliased source column when present; else a NULL
placeholder. -/
def claimSelectItem (source_table : String) (m : Mapping) : Option String :=
  if !(truthy m.target_column) then none
  else if truthy m.transformation then
    some (clean_transformation m.transformation ++ " AS " ++ m.target_column.getD "")
  else if truthy m.source_column then
    some (source_table ++ "." ++ m.source_column.getD "" ++ " AS " ++
      m.target_column.getD "")
  else
    some ("NULL AS " ++ m.target_column.getD "")

/-- The items of claim C2 amended at its one divergence from the code:
the transformation branch is taken when the transformation is non-blank
(truthy and with a non-whitespace character), not merely non-empty. -/
def claimSelectItemFixed (source_table : String) (m : Mapping) : Option String :=
  if !(truthy m.target_column) then none
  else if truthy m.transformation && pyStrip (m.transformation.getD "") != "" then
    some (clean_transformation m.transformation ++ " AS " ++ m.target_column.getD "")
  else if truthy m.source_column then
    some (source_table ++ "." ++ m.source_column.getD "" ++ " AS " ++
      m.target_column.getD "")
  else
    some ("NULL AS " ++ m.target_column.getD "")

/-- Counterexample to claim C2 as stated: a mapping whose transformation
is the non-empty blank string " " is rendered from its source column by
the code, while the claim's rule emits the (empty) normalized
transformation text. -/
theorem C2_counterexample :
    build_select_clause [⟨some "a", some "b", some " ", none, none⟩] "src" ≠
      joinWith ",\n"
        (([(⟨some "a", some "b", some " ", none, none⟩ : Mapping)].filterMap
          (claimSelectItem "src")).map (fun s => "    " ++ s)) := by
  decide

/-- Claim C2 (amended: the transformation branch requires a non-blank,
not merely non-empty, transformation): the SELECT list iterates the
entries in order, skips entries without a truthy target column, emits
for each kept entry the normalized transformation, the aliased source
column, or a NULL placeholder, and joins the items (each indented by
four spaces) with comma-newline. -/
theorem C2_select_clause_construction (ms : List Mapping) (st : String) :
    build_select_clause ms st =
      joinWith ",\n"
        ((ms.filterMap (claimSelectItemFixed st)).map (fun s => "    " ++ s)) := by
  unfold build_select_clause
  rw [List.map_filterMap]
  congr 1
  apply List.filterMap_congr
  intro m _
  unfold selectItem claimSelectItemFixed
  by_cases h1 : truthy m.target_column
  · simp only [h1, Bool.not_true, Bool.false_eq_true, if_false]
    by_cases h2 : truthy m.transformation && pyStrip (m.transformation.getD "") != ""
    · simp [h2, String.append_assoc]
    · have h2f : (truthy m.transformation && pyStrip (m.transformation.getD "") != "") = false := by
        simpa using h2
      simp only [h2f, Bool.false_eq_true, if_false]
      by_cases h3 : truthy m.source_column
      · simp [h3, String.append_assoc]
      · have h3f : truthy m.source_column = false := by simpa using h3
        have hsplit : ("    NULL AS " : String) = "    " ++ "NULL AS " := by decide
        simp only [h3f, Bool.false_eq_true, if_false]
        rw [hsplit, String.append_assoc]
        rfl
  · have h1f : truthy m.target_column = false := by simpa using h1
    simp [h1f]

/-- Claim C10: after a successful load, a mode string outside the three
recognised modes raises nothing and yields an empty map of queries. -/
theorem C10_unknown_mode_empty_map (v : Validator) (ms : List Mapping)
    (st tt : String) (ss ts : Option String) (qt : String)
    (hg : v.generator = some ms)
    (hq : qt ≠ "both" ∧ qt ≠ "source_minus_target" ∧ qt ≠ "target_minus_source") :
    v.generate_validation_queries st tt ss ts qt = .ok [] := by
  obtain ⟨h1, h2, h3⟩ := hq
  simp [Validator.generate_validation_queries, hg, h1, h2, h3]

theorem C10_witness :
    (Validator.mk [] (some [])).generator = some [] ∧
    ("nonsense" ≠ "both" ∧ "nonsense" ≠ "source_minus_target" ∧
      "nonsense" ≠ "target_minus_source") ∧
    (Validator.mk [] (some [])).generate_validation_queries
      "s" "t" none none "nonsense" = .ok [] :=
  ⟨rfl, by decide,
    C10_unknown_mode_empty_map (Validator.mk [] (some [])) [] "s" "t" none none
      "nonsense" rfl (by decide)⟩

/-- Claim C4: the generated map holds exactly the key(s) the mode
requests, and for mode `both` additionally the `complete` key whose
value concatenates the source-minus-target and target-minus-source
query texts with a separator comment between them. -/
theorem C4_requested_keys (ms : List Mapping) (st tt : String)
    (ss ts : Option String) :
    ((Validator.mk ms (some ms)).generate_validation_queries st tt ss ts
        "source_minus_target").map (fun qs => qs.map Prod.fst) =
      .ok ["source_minus_target"] ∧
    ((Validator.mk ms (some ms)).generate_validation_queries st tt ss ts
        "target_minus_source").map (fun qs => qs.map Prod.fst) =
      .ok ["target_minus_source"] ∧
    ((Validator.mk ms (some ms)).generate_validation_queries st tt ss ts
        "both").map (fun qs => qs.map Prod.fst) =
      .ok ["source_minus_target", "target_minus_source", "complete"] ∧
    (∃ qs, (Validator.mk ms (some ms)).generate_validation_queries st tt ss ts
        "both" = .ok qs ∧
      qs.lookup "complete" = some (completeHeader ++
        generate_source_minus_target ms st tt ss ts ++ completeSep ++
        generate_target_minus_source ms st tt ss ts ++ "\n")) := by
  refine ⟨rfl, rfl, rfl, ⟨_, rfl, rfl⟩⟩

theorem parse_ok_facts {df : DataFrame} {ms : List Mapping}
    (h : parse df = .ok ms) :
    df.rows ≠ [] ∧ ms = df.rows.map (rowToMapping (cleanColumns df)) := by
  simp only [parse] at h
  by_cases hv : (validate_format df).1
  · rw [if_pos hv] at h
    injection h with h2
    constructor
    · intro hrows
      have he : df.isEmptyDF = true := by simp [DataFrame.isEmptyDF, hrows]
      have hf : (validate_format df).1 = false := by simp [validate_format, he]
      rw [hf] at hv
      simp at hv
    · exact h2.symm
  · rw [if_neg hv] at h
    simp at h

/-- Counterexample to claim C3 as stated: on a freshly constructed,
unloaded orchestrator, `get_mapping_summary` does not fail with any
error — it returns the empty summary. -/
theorem C3_counterexample :
    Validator.init.get_mapping_summary = Except.ok none ∧
    ¬ ∃ e, Validator.init.get_mapping_summary = Except.error e := by
  refine ⟨rfl, ?_⟩
  rintro ⟨e, he⟩
  simp [Validator.get_mapping_summary, Validator.init] at he

/-- Claim C3 (amended: only `generateValidationQueries` raises the
not-loaded error before a successful load; `getSummary` instead returns
an empty summary without failing): before a load the query generation
fails with the not-loaded message, and after a successful load both
calls succeed, the summary being populated. -/
theorem C3_not_loaded_guard (st tt : String) (ss ts : Option String)
    (qt : String) (df : DataFrame) :
    Validator.init.generate_validation_queries st tt ss ts qt = .error notLoadedMsg ∧
    Validator.init.get_mapping_summary = .ok none ∧
    ∀ v, load_mappings df = .ok v →
      (∃ qs, v.generate_validation_queries st tt ss ts qt = .ok qs) ∧
      (∃ s, v.get_mapping_summary = .ok (some s)) := by
  refine ⟨rfl, rfl, ?_⟩
  intro v hv
  unfold load_mappings at hv
  cases hp : parse df with
  | error e => rw [hp] at hv; simp at hv
  | ok ms =>
    rw [hp] at hv
    injection hv with hveq
    obtain ⟨hrows, hms⟩ := parse_ok_facts hp
    subst hveq
    constructor
    · exact ⟨_, rfl⟩
    · have hne : ms ≠ [] := by
        rw [hms]
        simpa using hrows
      refine ⟨⟨ms.length, get_source_columns ms, get_target_columns ms,
        get_transformations ms, extract_source_tables ms⟩, ?_⟩
      have hie : ms.isEmpty = false := by simp [List.isEmpty_iff, hne]
      simp [Validator.get_mapping_summary, hie]

theorem lookup_map_replace (d : List (String × String)) (k v : String)
    (h : d.any (fun p => p.1 == k) = true) :
    (d.map (fun p => bif p.1 == k then (k, v) else p)).lookup k = some v := by
  induction d with
  | nil => simp at h
  | cons p rest ih =>
    by_cases hp : p.1 = k
    · have hp2 : (p.1 == k) = true := by simp [hp]
      simp [List.lookup, hp2]
    · have hp2 : (p.1 == k) = false := by simp [hp]
      have hk2 : (k == p.1) = false := by
        simp [show k ≠ p.1 from fun he => hp he.symm]
      simp only [List.any_cons, hp2, Bool.false_or] at h
      simp [List.lookup, hp2, hk2, ih h]

theorem lookup_append_new (d : List (String × String)) (k v : String)
    (h : d.any (fun p => p.1 == k) = false) :
    (d ++ [(k, v)]).lookup k = some v := by
  induction d with
  | nil => simp [List.lookup]
  | cons p rest ih =>
    simp only [List.any_cons, Bool.or_eq_false_iff] at h
    have hk2 : (k == p.1) = false := by
      have hpk : p.1 ≠ k := by
        intro he
        rw [he] at h
        simp at h
      simp [show k ≠ p.1 from fun he => hpk he.symm]
    simp [List.lookup, hk2, ih h.2]

theorem lookup_map_replace_other (d : List (String × String)) (k v k' : String)
    (h : k' ≠ k) :
    (d.map (fun p => bif p.1 == k then (k, v) else p)).lookup k' = d.lookup k' := by
  induction d with
  | nil => rfl
  | cons p rest ih =>
    by_cases hp : p.1 = k
    · have hp2 : (p.1 == k) = true := by simp [hp]
      have hk2 : (k' == k) = false := by simp [h]
      have hk3 : (k' == p.1) = false := by simp [hp, h]
      simp [List.lookup, hp2, hk2, hk3, ih]
    · have hp2 : (p.1 == k) = false := by simp [hp]
      by_cases hq : k' = p.1
      · simp [List.lookup, hp2, hq]
      · have hq2 : (k' == p.1) = false := by simp [hq]
        simp [List.lookup, hp2, hq2, ih]

theorem lookup_append_other (d : List (String × String)) (k v k' : String)
    (h : k' ≠ k) :
    (d ++ [(k, v)]).lookup k' = d.lookup k' := by
  induction d with
  | nil =>
    have hk : (k' == k) = false := by simp [h]
    simp [List.lookup, hk]
  | cons p rest ih =>
    by_cases hq : k' = p.1
    · simp [List.lookup, hq]
    · have hq2 : (k' == p.1) = false := by simp [hq]
      simp [List.lookup, hq2, ih]

theorem lookup_dictUpsert_self (d : List (String × String)) (k v : String) :
    (dictUpsert d k v).lookup k = some v := by
  unfold dictUpsert
  cases hany : d.any (fun p => p.1 == k) with
  | true =>
    simp only [hany, if_true]
    exact lookup_map_replace d k v hany
  | false =>
    simp only [hany, Bool.false_eq_true, if_false]
    exact lookup_append_new d k v hany

theorem lookup_dictUpsert_other (d : List (String × String)) (k v k' : String)
    (h : k' ≠ k) :
    (dictUpsert d k v).lookup k' = d.lookup k' := by
  unfold dictUpsert
  cases hany : d.any (fun p => p.1 == k) with
  | true =>
    simp only [hany, if_true]
    exact lookup_map_replace_other d k v k' h
  | false =>
    simp only [hany, Bool.false_eq_true, if_false]
    exact lookup_append_other d k v k' h

/-- Entries whose target column equals `t` and whose target column and
transformation are both truthy — exactly the entries that write the key
`t` in `get_transformations`. -/
def tgtFilter (t : String) (m : Mapping) : Bool :=
  m.target_column == some t && truthy m.target_column && truthy m.transformation

theorem get_transformations_foldl (ms : List Mapping)
    (d : List (String × String)) (t : String) :
    (ms.foldl (fun d m =>
      if truthy m.target_column && truthy m.transformation then
        dictUpsert d (m.target_column.getD "") (m.transformation.getD "")
      else d) d).lookup t =
    (match (ms.filter (tgtFilter t)).getLast? with
      | some m => some (m.transformation.getD "")
      | none => d.lookup t) := by
  induction ms generalizing d with
  | nil => simp
  | cons m rest ih =>
    rw [List.foldl_cons, ih]
    cases hrf : rest.filter (tgtFilter t) with
    | cons x xs =>
      cases hgl : (x :: xs).getLast? with
      | none => simp at hgl
      | some y =>
        by_cases hP : tgtFilter t m
        · simp [List.filter_cons, hP, hrf, hgl]
        · have hPf : tgtFilter t m = false := by simpa using hP
          simp [List.filter_cons, hPf, hrf, hgl]
    | nil =>
      by_cases hP : tgtFilter t m
      · have hdec := hP
        unfold tgtFilter at hdec
        simp only [Bool.and_eq_true, beq_iff_eq] at hdec
        obtain ⟨⟨heq, htg⟩, htr⟩ := hdec
        have hcond : (truthy m.target_column && truthy m.transformation) = true := by
          simp [htg, htr]
        have hkey : m.target_column.getD "" = t := by rw [heq]; rfl
        simp only [List.filter_cons, hP, if_true, hrf, List.getLast?_singleton]
        simp only [hcond, if_true, hkey]
        exact lookup_dictUpsert_self d t (m.transformation.getD "")
      · have hPf : tgtFilter t m = false := by simpa using hP
        simp only [List.filter_cons, hPf, Bool.false_eq_true, if_false, hrf]
        by_cases hc : (truthy m.target_column && truthy m.transformation) = true
        · have hne : t ≠ m.target_column.getD "" := by
            intro he
            apply hP
            unfold tgtFilter
            simp only [Bool.and_eq_true] at hc
            obtain ⟨htg, htr⟩ := hc
            cases hm : m.target_column with
            | none => rw [hm] at htg; simp [truthy] at htg
            | some s =>
              have hts : t = s := by rw [hm] at he; simpa using he
              rw [hm] at htg
              rw [hts]
              simp [htg, htr]
          simp only [hc, if_true]
          exact lookup_dictUpsert_other d _ _ t hne
        · have hcf : (truthy m.target_column && truthy m.transformation) = false := by
            simpa using hc
          simp [hcf]

/-- A loadable mapping set with a duplicate target column, used by the
witness of claim C9: both entries are complete (as a successful load
guarantees) and both target `t`. -/
def c9Mappings : List Mapping :=
  [⟨some "a", some "t", some "f", none, none⟩,
   ⟨some "b", some "t", some "g", none, none⟩]

/-- Claim C9: on a loaded mapping set — after a successful load every
entry's required cells hold non-empty strings, since pandas turns an
empty cell into NaN and validation check 5 rejects any null required
field — the derived transformations view maps each occurring target
column `t` to the transformation text of the last entry whose target
column is `t` (last-wins over duplicate target columns). -/
theorem C9_transformations_last_wins (ms : List Mapping) (t : String)
    (hload : ∀ m ∈ ms,
      truthy m.target_column = true ∧ truthy m.transformation = true)
    (hocc : ∃ m ∈ ms, m.target_column = some t) :
    ∃ e, (ms.filter (fun m => m.target_column == some t)).getLast? = some e ∧
      (get_transformations ms).lookup t = some (e.transformation.getD "") := by
  have hfe : ms.filter (fun m => m.target_column == some t) =
      ms.filter (tgtFilter t) := by
    apply List.filter_congr
    intro m hm
    obtain ⟨h1, h2⟩ := hload m hm
    simp [tgtFilter, h1, h2]
  obtain ⟨m0, hm0, hm0t⟩ := hocc
  have hmem : m0 ∈ ms.filter (fun m => m.target_column == some t) := by
    rw [List.mem_filter]
    exact ⟨hm0, by simp [hm0t]⟩
  have hne : ms.filter (fun m => m.target_column == some t) ≠ [] := by
    intro hnil
    rw [hnil] at hmem
    cases hmem
  refine ⟨(ms.filter (fun m => m.target_column == some t)).getLast hne,
    List.getLast?_eq_getLast _ hne, ?_⟩
  unfold get_transformations
  rw [get_transformations_foldl]
  have he := List.getLast?_eq_getLast
    (ms.filter (fun m => m.target_column == some t)) hne
  rw [← hfe, he]

theorem C9_witness :
    (∀ m ∈ c9Mappings,
      truthy m.target_column = true ∧ truthy m.transformation = true) ∧
    (∃ m ∈ c9Mappings, m.target_column = some "t") ∧
    ∃ e, (c9Mappings.filter
        (fun m => m.target_column == some "t")).getLast? = some e ∧
      (get_transformations c9Mappings).lookup "t" =
        some (e.transformation.getD "") :=
  ⟨by decide, by decide,
    C9_transformations_last_wins c9Mappings "t" (by decide) (by decide)⟩

/-! ### Claim C1: the ordered validation checks -/

/-- Check (1) of claim C1: the parsed table is empty. -/
def chkEmpty (df : DataFrame) : Prop := df.isEmptyDF = true

/-- Check (2) of claim C1: after trimming and lower-casing the header
names, a required field is missing. -/
def chkMissing (df : DataFrame) : Prop :=
  ∃ c ∈ REQUIRED_COLUMNS, c ∉ cleanColumns df

/-- Check (3) of claim C1: some required field has a null value in every
row. -/
def chkAllNull (df : DataFrame) : Prop :=
  ∃ c ∈ REQUIRED_COLUMNS, ∀ row ∈ df.rows, cellGet (cleanColumns df) row c = none

/-- Check (4) of claim C1: some row has a null value in one of the three
required fields. -/
def chkRowNull (df : DataFrame) : Prop :=
  ∃ row ∈ df.rows, nullRow (cleanColumns df) row = true

theorem mem_insertSorted (y : String) (l : List String) (x : String) :
    x ∈ insertSorted y l ↔ x = y ∨ x ∈ l := by
  induction l with
  | nil => simp [insertSorted]
  | cons z zs ih =>
    unfold insertSorted
    by_cases h : strLeB y z = true
    · simp [h, List.mem_cons]
    · have hf : strLeB y z = false := by simpa using h
      simp only [hf, Bool.false_eq_true, if_false, List.mem_cons, ih]
      tauto

theorem mem_sortStrings_iff {l : List String} {x : String} :
    x ∈ sortStrings l ↔ x ∈ l := by
  induction l with
  | nil => simp [sortStrings]
  | cons y ys ih =>
    unfold sortStrings
    rw [mem_insertSorted, ih, List.mem_cons]

theorem mem_sortStrings {l : List String} {x : String} (h : x ∈ l) :
    x ∈ sortStrings l :=
  mem_sortStrings_iff.mpr h

theorem lexLe_total (as bs : List Char) :
    lexLe as bs = true ∨ lexLe bs as = true := by
  induction as generalizing bs with
  | nil => exact Or.inl rfl
  | cons a as2 ih =>
    cases bs with
    | nil => exact Or.inr rfl
    | cons b bs2 =>
      unfold lexLe
      by_cases h1 : a.toNat < b.toNat
      · left
        simp [h1]
      · by_cases h2 : b.toNat < a.toNat
        · right
          simp [h2]
        · rcases ih bs2 with h | h
          · left
            simp [h1, h2, h]
          · right
            simp [h1, h2, h]

theorem strLeB_total (a b : String) : strLeB a b = true ∨ strLeB b a = true :=
  lexLe_total a.data b.data

theorem head_insertSorted (y : String) (l : List String) :
    (insertSorted y l).head? = some y ∨ (insertSorted y l).head? = l.head? := by
  cases l with
  | nil => exact Or.inl rfl
  | cons u us =>
    unfold insertSorted
    by_cases h : strLeB y u = true
    · rw [if_pos h]
      exact Or.inl rfl
    · have hf : strLeB y u = false := by simpa using h
      simp only [hf, Bool.false_eq_true, if_false]
      exact Or.inr rfl

theorem chain_insertSorted (y : String) (l : List String)
    (h : List.Chain' (fun a b => strLeB a b = true) l) :
    List.Chain' (fun a b => strLeB a b = true) (insertSorted y l) := by
  induction l with
  | nil => simp [insertSorted]
  | cons z zs ih =>
    rw [List.chain'_cons'] at h
    obtain ⟨hhead, htail⟩ := h
    unfold insertSorted
    by_cases hzy : strLeB y z = true
    · rw [if_pos hzy, List.chain'_cons']
      refine ⟨?_, List.chain'_cons'.mpr ⟨hhead, htail⟩⟩
      intro w hw
      simp only [List.head?_cons, Option.mem_def, Option.some.injEq] at hw
      rw [← hw]
      exact hzy
    · have hf : strLeB y z = false := by simpa using hzy
      have hzy2 : strLeB z y = true := by
        rcases strLeB_total y z with hh | hh
        · rw [hh] at hf
          cases hf
        · exact hh
      simp only [hf, Bool.false_eq_true, if_false]
      rw [List.chain'_cons']
      refine ⟨?_, ih htail⟩
      intro w hw
      rcases head_insertSorted y zs with hh | hh
      · rw [hh] at hw
        simp only [Option.mem_def, Option.some.injEq] at hw
        rw [← hw]
        exact hzy2
      · rw [hh] at hw
        exact hhead w hw

theorem chain_sortStrings (l : List String) :
    List.Chain' (fun a b => strLeB a b = true) (sortStrings l) := by
  induction l with
  | nil => simp [sortStrings]
  | cons y ys ih => exact chain_insertSorted y (sortStrings ys) ih

theorem nodup_insertSorted (y : String) (l : List String)
    (hy : y ∉ l) (h : l.Nodup) : (insertSorted y l).Nodup := by
  induction l with
  | nil => simp [insertSorted]
  | cons z zs ih =>
    unfold insertSorted
    by_cases hzy : strLeB y z = true
    · rw [if_pos hzy]
      exact List.Nodup.cons hy h
    · have hf : strLeB y z = false := by simpa using hzy
      simp only [hf, Bool.false_eq_true, if_false]
      rw [List.nodup_cons] at h ⊢
      obtain ⟨hz, hzs⟩ := h
      refine ⟨?_, ih (fun hm => hy (List.mem_cons_of_mem z hm)) hzs⟩
      rw [mem_insertSorted]
      rintro (rfl | hm)
      · exact hy (List.mem_cons_self z zs)
      · exact hz hm

theorem nodup_sortStrings (l : List String) (h : l.Nodup) :
    (sortStrings l).Nodup := by
  induction l with
  | nil => simp [sortStrings]
  | cons y ys ih =>
    rw [List.nodup_cons] at h
    obtain ⟨hy, hys⟩ := h
    exact nodup_insertSorted y (sortStrings ys)
      (fun hm => hy (mem_sortStrings_iff.mp hm)) (ih hys)

theorem mem_sortedDistinct {l : List String} {x : String} (h : x ∈ l) :
    x ∈ sortedDistinct l :=
  mem_sortStrings (List.mem_dedup.mpr h)

/-- Claim C1: `load` fails exactly when one of the four ordered checks
fails, the first failing check determining the error — an empty table
gives the fixed empty-file message; missing required header names give a
message naming the missing fields and all the found fields; an entirely
null required column gives a message naming such a column; otherwise
rows with a null required field give a message reporting their count;
and when every check passes, the load succeeds with one mapping entry
per input row. -/
theorem C1_load_validation (df : DataFrame) :
    (chkEmpty df → parse df = .error emptyFileMsg) ∧
    (¬ chkEmpty df → chkMissing df →
      ∃ msg, parse df = .error msg ∧
        (∀ c ∈ REQUIRED_COLUMNS, c ∉ cleanColumns df → containsSub msg c) ∧
        (∀ c ∈ cleanColumns df, containsSub msg c)) ∧
    (¬ chkEmpty df → ¬ chkMissing df → chkAllNull df →
      ∃ msg c, parse df = .error msg ∧ c ∈ REQUIRED_COLUMNS ∧
        (∀ row ∈ df.rows, cellGet (cleanColumns df) row c = none) ∧
        containsSub msg c) ∧
    (¬ chkEmpty df → ¬ chkMissing df → ¬ chkAllNull df → chkRowNull df →
      ∃ msg, parse df = .error msg ∧
        containsSub msg (toString (df.rows.countP (nullRow (cleanColumns df))))) ∧
    (¬ chkEmpty df → ¬ chkMissing df → ¬ chkAllNull df → ¬ chkRowNull df →
      ∃ ms, parse df = .ok ms ∧ ms.length = df.rows.length) := by
  refine ⟨?_, ?_, ?_, ?_, ?_⟩
  · intro he
    have h1 : df.isEmptyDF = true := he
    simp [parse, validate_format, h1]
  · intro hne hmiss
    have hemp : df.isEmptyDF = false := by
      cases h : df.isEmptyDF with
      | true => exact absurd h hne
      | false => rfl
    have hfil : (REQUIRED_COLUMNS.filter
        (fun c => !((cleanColumns df).contains c))) ≠ [] := by
      obtain ⟨c, hc1, hc2⟩ := hmiss
      intro hnil
      rw [List.filter_eq_nil_iff] at hnil
      have hc3 := hnil c hc1
      simp only [Bool.not_eq_true, Bool.not_eq_false] at hc3
      exact hc2 (by simpa using hc3)
    have hfil2 : (REQUIRED_COLUMNS.filter
        (fun c => !((cleanColumns df).contains c))).isEmpty = false := by
      simpa [List.isEmpty_iff] using hfil
    refine ⟨"❌ Missing required columns: " ++
        joinWith ", " (sortStrings (REQUIRED_COLUMNS.filter
          (fun c => !((cleanColumns df).contains c)))) ++
        "\n\n📋 Expected columns: source_column, target_column, transformation" ++
        "\n\n📊 Found columns: " ++
        (if (cleanColumns df).isEmpty then "none"
          else joinWith ", " (sortedDistinct (cleanColumns df))), ?_, ?_, ?_⟩
    · simp only [parse, validate_format, hemp, Bool.false_eq_true, if_false,
        hfil2, Bool.not_false, if_true]
    · intro c hc1 hc2
      have hmem : c ∈ REQUIRED_COLUMNS.filter
          (fun c => !((cleanColumns df).contains c)) := by
        rw [List.mem_filter]
        refine ⟨hc1, ?_⟩
        simp [hc2]
      have hj := mem_joinWith ", " (mem_sortStrings hmem)
      exact containsSub_appR _ (containsSub_appR _ (containsSub_appR _
        (containsSub_appL _ hj)))
    · intro c hc
      have hj := mem_joinWith ", " (mem_sortedDistinct hc)
      have hcols : (cleanColumns df).isEmpty = false := by
        cases hcol : df.columns with
        | nil => simp [DataFrame.isEmptyDF, hcol] at hemp
        | cons a l => simp [cleanColumns, hcol]
      simp only [hcols, Bool.false_eq_true, if_false]
      exact containsSub_appL _ hj
  · intro hne hmiss hall
    have hemp : df.isEmptyDF = false := by
      cases h : df.isEmptyDF with
      | true => exact absurd h hne
      | false => rfl
    have hfil : (REQUIRED_COLUMNS.filter
        (fun c => !((cleanColumns df).contains c))) = [] := by
      rw [List.filter_eq_nil_iff]
      intro c hc
      simp only [Bool.not_eq_true]
      by_contra hcc
      apply hmiss
      refine ⟨c, hc, ?_⟩
      intro hmem
      simp [hmem] at hcc
    have hfind : ∃ c0, REQUIRED_COLUMNS.find?
        (fun c => df.rows.all (fun row => (cellGet (cleanColumns df) row c).isNone)) =
          some c0 := by
      obtain ⟨c, hc1, hc2⟩ := hall
      have hs : (REQUIRED_COLUMNS.find?
          (fun c => df.rows.all (fun row =>
            (cellGet (cleanColumns df) row c).isNone))).isSome := by
        rw [List.find?_isSome]
        refine ⟨c, hc1, ?_⟩
        rw [List.all_eq_true]
        intro row hrow
        simp [hc2 row hrow]
      exact Option.isSome_iff_exists.mp hs
    obtain ⟨c0, hc0⟩ := hfind
    have hc0mem := List.mem_of_find?_eq_some hc0
    have hc0p := List.find?_some hc0
    rw [List.all_eq_true] at hc0p
    refine ⟨"❌ Column \x27" ++ c0 ++
      "\x27 is empty. All required columns must have at least some data.",
      c0, ?_, hc0mem, ?_, ?_⟩
    · simp only [parse, validate_format, hemp, Bool.false_eq_true, if_false,
        hfil, List.isEmpty_nil, Bool.not_true, hc0]
    · intro row hrow
      simpa using hc0p row hrow
    · exact containsSub_appR _ (containsSub_appL _ (containsSub_self c0))
  · intro hne hmiss hall hrow
    have hemp : df.isEmptyDF = false := by
      cases h : df.isEmptyDF with
      | true => exact absurd h hne
      | false => rfl
    have hfil : (REQUIRED_COLUMNS.filter
        (fun c => !((cleanColumns df).contains c))) = [] := by
      rw [List.filter_eq_nil_iff]
      intro c hc
      simp only [Bool.not_eq_true]
      by_contra hcc
      apply hmiss
      refine ⟨c, hc, ?_⟩
      intro hmem
      simp [hmem] at hcc
    have hfind : REQUIRED_COLUMNS.find?
        (fun c => df.rows.all (fun row => (cellGet (cleanColumns df) row c).isNone)) =
          none := by
      rw [List.find?_eq_none]
      intro c hc hp
      apply hall
      refine ⟨c, hc, ?_⟩
      rw [List.all_eq_true] at hp
      intro row hrw
      simpa using hp row hrw
    have hcount : 0 < df.rows.countP (nullRow (cleanColumns df)) := by
      rw [List.countP_pos]
      obtain ⟨row, h1, h2⟩ := hrow
      exact ⟨row, h1, h2⟩
    refine ⟨"❌ Found " ++
      toString (df.rows.countP (nullRow (cleanColumns df))) ++
      " row(s) with missing required data (source_column, target_column, or transformation). Please fill in all required fields.",
      ?_, ?_⟩
    · simp only [parse, validate_format, hemp, Bool.false_eq_true, if_false,
        hfil, List.isEmpty_nil, Bool.not_true, hfind]
      rw [if_pos hcount]
      simp
    · exact containsSub_appR _ (containsSub_appL _ (containsSub_self _))
  · intro hne hmiss hall hrow
    have hemp : df.isEmptyDF = false := by
      cases h : df.isEmptyDF with
      | true => exact absurd h hne
      | false => rfl
    have hfil : (REQUIRED_COLUMNS.filter
        (fun c => !((cleanColumns df).contains c))) = [] := by
      rw [List.filter_eq_nil_iff]
      intro c hc
      simp only [Bool.not_eq_true]
      by_contra hcc
      apply hmiss
      refine ⟨c, hc, ?_⟩
      intro hmem
      simp [hmem] at hcc
    have hfind : REQUIRED_COLUMNS.find?
        (fun c => df.rows.all (fun row => (cellGet (cleanColumns df) row c).isNone)) =
          none := by
      rw [List.find?_eq_none]
      intro c hc hp
      apply hall
      refine ⟨c, hc, ?_⟩
      rw [List.all_eq_true] at hp
      intro row hrw
      simpa using hp row hrw
    have hcount : ¬ (df.rows.countP (nullRow (cleanColumns df)) > 0) :=
      fun hpos => hrow (List.countP_pos.mp hpos)
    refine ⟨df.rows.map (rowToMapping (cleanColumns df)), ?_, ?_⟩
    · simp only [parse, validate_format, hemp, Bool.false_eq_true, if_false,
        hfil, List.isEmpty_nil, Bool.not_true, hfind]
      rw [if_neg hcount]
      simp
    · exact List.length_map _ _

theorem mem_tables_foldl (ms : List Mapping) (acc : List String) (x : String) :
    x ∈ ms.foldl (fun acc m =>
      match m.transformation with
      | some t => if t ≠ "" then acc ++ findTableRefs t.data else acc
      | none => acc) acc ↔
    x ∈ acc ∨ ∃ m ∈ ms, ∃ t, m.transformation = some t ∧ t ≠ "" ∧
      x ∈ findTableRefs t.data := by
  induction ms generalizing acc with
  | nil => simp
  | cons m rest ih =>
    rw [List.foldl_cons, ih]
    cases htr : m.transformation with
    | none =>
      simp only [List.mem_cons]
      constructor
      · rintro (hx | hx)
        · exact Or.inl hx
        · obtain ⟨m2, hm2, rest2⟩ := hx
          exact Or.inr ⟨m2, Or.inr hm2, rest2⟩
      · rintro (hx | ⟨m2, hm2 | hm2, t, hteq, hrest⟩)
        · exact Or.inl hx
        · rw [hm2, htr] at hteq
          cases hteq
        · exact Or.inr ⟨m2, hm2, t, hteq, hrest⟩
    | some t =>
      by_cases ht : t = ""
      · subst ht
        simp only [if_neg (fun h : ("" : String) ≠ "" => h rfl), List.mem_cons]
        constructor
        · rintro (hx | hx)
          · exact Or.inl hx
          · obtain ⟨m2, hm2, rest2⟩ := hx
            exact Or.inr ⟨m2, Or.inr hm2, rest2⟩
        · rintro (hx | ⟨m2, hm2 | hm2, t2, hteq, ht2, hrest⟩)
          · exact Or.inl hx
          · rw [hm2, htr] at hteq
            injection hteq with he
            exact absurd he.symm ht2
          · exact Or.inr ⟨m2, hm2, t2, hteq, ht2, hrest⟩
      · simp only [if_pos ht, List.mem_append, List.mem_cons]
        constructor
        · rintro ((hx | hx) | hx)
          · exact Or.inl hx
          · exact Or.inr ⟨m, Or.inl rfl, t, htr, ht, hx⟩
          · obtain ⟨m2, hm2, rest2⟩ := hx
            exact Or.inr ⟨m2, Or.inr hm2, rest2⟩
        · rintro (hx | ⟨m2, hm2 | hm2, t2, hteq, ht2, hrest⟩)
          · exact Or.inl (Or.inl hx)
          · rw [hm2, htr] at hteq
            injection hteq with he
            subst he
            exact Or.inl (Or.inr hrest)
          · exact Or.inr ⟨m2, hm2, t2, hteq, ht2, hrest⟩

/-- A non-empty string of word characters. -/
def wordString (x : String) : Prop :=
  x.data ≠ [] ∧ ∀ c ∈ x.data, isWordChar c = true

/-- A capture of the scan that starts strictly inside `l`: the word run
`x` sits between a non-word character and a dot. -/
def innerCap (l : List Char) (x : String) : Prop :=
  wordString x ∧ ∃ pre post d pre0, l = pre ++ x.data ++ '.' :: post ∧
    pre = pre0 ++ [d] ∧ isWordChar d = false

/-- What the pattern `(\w+)\.` captures, in the claim's words: a
(maximal) run of word characters immediately followed by a dot — the
run is non-empty, all its characters are word characters, a dot follows
it, and the character before it (when there is one) is not a word
character. -/
def capturedAt (l : List Char) (x : String) : Prop :=
  wordString x ∧ ∃ pre post, l = pre ++ x.data ++ '.' :: post ∧
    (∀ d, pre.getLast? = some d → isWordChar d = false)

theorem innerCap_cons (c : Char) (rest : List Char) (x : String) :
    innerCap (c :: rest) x ↔
      (isWordChar c = false ∧ wordString x ∧ ∃ post, rest = x.data ++ '.' :: post) ∨
      innerCap rest x := by
  constructor
  · rintro ⟨hgood, pre, post, d, pre0, hdec, hpre, hd⟩
    cases pre0 with
    | nil =>
      simp only [List.nil_append] at hpre
      subst hpre
      simp only [List.cons_append, List.nil_append] at hdec
      injection hdec with h1 h2
      exact Or.inl ⟨h1 ▸ hd, hgood, post, h2⟩
    | cons e pre1 =>
      subst hpre
      simp only [List.cons_append] at hdec
      injection hdec with h1 h2
      refine Or.inr ⟨hgood, pre1 ++ [d], post, d, pre1, ?_, rfl, hd⟩
      rw [h2]
  · rintro (⟨hcw, hgood, post, hrest⟩ | ⟨hgood, pre, post, d, pre0, hdec, hpre, hd⟩)
    · refine ⟨hgood, [c], post, c, [], ?_, rfl, hcw⟩
      rw [hrest]
      rfl
    · refine ⟨hgood, c :: pre, post, d, c :: pre0, ?_, ?_, hd⟩
      · rw [hdec]
        rfl
      · rw [hpre]
        rfl

theorem mem_scanRefs (l : List Char) : ∀ acc : List Char,
    (∀ c ∈ acc, isWordChar c = true) → ∀ x : String,
    (x ∈ scanRefs l acc ↔
      (∃ run post, l = run ++ '.' :: post ∧ (∀ c ∈ run, isWordChar c = true) ∧
        x.data = acc.reverse ++ run ∧ x.data ≠ []) ∨ innerCap l x) := by
  induction l with
  | nil =>
    intro acc hacc x
    simp only [scanRefs, List.not_mem_nil, false_iff]
    rintro (⟨run, post, habs, _⟩ | ⟨_, pre, post, d, pre0, habs, _, _⟩)
    · obtain ⟨-, habs2⟩ := List.append_eq_nil.mp habs.symm
      cases habs2
    · obtain ⟨-, habs2⟩ := List.append_eq_nil.mp habs.symm
      cases habs2
  | cons c rest ih =>
    intro acc hacc x
    by_cases hw : isWordChar c = true
    · have hacc2 : ∀ d ∈ (c :: acc), isWordChar d = true := by
        intro d hd
        rcases List.mem_cons.mp hd with rfl | hd
        · exact hw
        · exact hacc d hd
      rw [show scanRefs (c :: rest) acc = scanRefs rest (c :: acc) from by
        simp [scanRefs, hw]]
      rw [ih (c :: acc) hacc2 x]
      constructor
      · rintro (⟨run, post, hdec, hrun, hx, hne⟩ | hic)
        · refine Or.inl ⟨c :: run, post, ?_, ?_, ?_, hne⟩
          · rw [hdec]
            rfl
          · intro d hd
            rcases List.mem_cons.mp hd with rfl | hd
            · exact hw
            · exact hrun d hd
          · rw [hx]
            simp [List.append_assoc]
        · exact Or.inr ((innerCap_cons c rest x).mpr (Or.inr hic))
      · rintro (⟨run, post, hdec, hrun, hx, hne⟩ | hic)
        · cases run with
          | nil =>
            simp only [List.nil_append] at hdec
            injection hdec with h1 _
            exact absurd (h1 ▸ hw) (by decide)
          | cons r0 run2 =>
            simp only [List.cons_append] at hdec
            injection hdec with h1 h2
            refine Or.inl ⟨run2, post, h2, ?_, ?_, hne⟩
            · intro d hd
              exact hrun d (List.mem_cons_of_mem _ hd)
            · rw [hx, h1]
              simp [List.append_assoc]
        · rcases (innerCap_cons c rest x).mp hic with ⟨hcf, -⟩ | hic2
          · rw [hw] at hcf
            cases hcf
          · exact Or.inr hic2
    · have hwf : isWordChar c = false := by simpa using hw
      by_cases hdot : c = '.'
      · subst hdot
        by_cases hae : acc = []
        · subst hae
          rw [show scanRefs ('.' :: rest) [] = scanRefs rest [] from by
            simp [scanRefs, hwf]]
          rw [ih [] (by simp) x]
          constructor
          · rintro (⟨run, post, hdec, hrun, hx, hne⟩ | hic)
            · refine Or.inr ((innerCap_cons '.' rest x).mpr (Or.inl
                ⟨by decide, ⟨hne, ?_⟩, post, ?_⟩))
              · intro d hd
                rw [hx] at hd
                exact hrun d (by simpa using hd)
              · rw [hdec, hx]
                simp
            · exact Or.inr ((innerCap_cons '.' rest x).mpr (Or.inr hic))
          · rintro (⟨run, post, hdec, hrun, hx, hne⟩ | hic)
            · cases run with
              | nil =>
                simp only [List.reverse_nil, List.nil_append] at hx
                exact absurd hx hne
              | cons r0 run2 =>
                simp only [List.cons_append] at hdec
                injection hdec with h1 _
                have hr := hrun r0 (List.mem_cons_self _ _)
                rw [← h1] at hr
                exact absurd hr (by decide)
            · rcases (innerCap_cons '.' rest x).mp hic with ⟨-, hgood, post, hrest⟩ | hic2
              · exact Or.inl ⟨x.data, post, hrest, hgood.2, by simp, hgood.1⟩
              · exact Or.inr hic2
        · have hne : acc.isEmpty = false := by simpa [List.isEmpty_iff] using hae
          rw [show scanRefs ('.' :: rest) acc =
              (⟨acc.reverse⟩ : String) :: scanRefs rest [] from by
            simp [scanRefs, hwf, hne]]
          rw [List.mem_cons, ih [] (by simp) x]
          constructor
          · rintro (rfl | (⟨run, post, hdec, hrun, hx, hxne⟩ | hic))
            · refine Or.inl ⟨[], rest, rfl, by simp, by simp, ?_⟩
              show ¬ (String.mk acc.reverse).data = []
              simpa using hae
            · refine Or.inr ((innerCap_cons '.' rest x).mpr (Or.inl
                ⟨by decide, ⟨hxne, ?_⟩, post, ?_⟩))
              · intro d hd
                rw [hx] at hd
                exact hrun d (by simpa using hd)
              · rw [hdec, hx]
                simp
            · exact Or.inr ((innerCap_cons '.' rest x).mpr (Or.inr hic))
          · rintro (⟨run, post, hdec, hrun, hx, hxne⟩ | hic)
            · cases run with
              | nil =>
                refine Or.inl (String.ext ?_)
                simpa using hx
              | cons r0 run2 =>
                simp only [List.cons_append] at hdec
                injection hdec with h1 _
                have hr := hrun r0 (List.mem_cons_self _ _)
                rw [← h1] at hr
                exact absurd hr (by decide)
            · rcases (innerCap_cons '.' rest x).mp hic with ⟨-, hgood, post, hrest⟩ | hic2
              · exact Or.inr (Or.inl ⟨x.data, post, hrest, hgood.2, by simp, hgood.1⟩)
              · exact Or.inr (Or.inr hic2)
      · rw [show scanRefs (c :: rest) acc = scanRefs rest [] from by
          simp [scanRefs, hwf, hdot]]
        rw [ih [] (by simp) x]
        constructor
        · rintro (⟨run, post, hdec, hrun, hx, hxne⟩ | hic)
          · refine Or.inr ((innerCap_cons c rest x).mpr (Or.inl
              ⟨hwf, ⟨hxne, ?_⟩, post, ?_⟩))
            · intro d hd
              rw [hx] at hd
              exact hrun d (by simpa using hd)
            · rw [hdec, hx]
              simp
          · exact Or.inr ((innerCap_cons c rest x).mpr (Or.inr hic))
        · rintro (⟨run, post, hdec, hrun, hx, hxne⟩ | hic)
          · cases run with
            | nil =>
              simp only [List.nil_append] at hdec
              injection hdec with h1 _
              exact absurd h1 hdot
            | cons r0 run2 =>
              simp only [List.cons_append] at hdec
              injection hdec with h1 _
              have hr := hrun r0 (List.mem_cons_self _ _)
              rw [← h1] at hr
              rw [hwf] at hr
              cases hr
          · rcases (innerCap_cons c rest x).mp hic with ⟨-, hgood, post, hrest⟩ | hic2
            · exact Or.inl ⟨x.data, post, hrest, hgood.2, by simp, hgood.1⟩
            · exact Or.inr hic2

theorem mem_findTableRefs (l : List Char) (x : String) :
    x ∈ findTableRefs l ↔ capturedAt l x := by
  unfold findTableRefs capturedAt
  rw [mem_scanRefs l [] (by simp) x]
  constructor
  · rintro (⟨run, post, hdec, hrun, hx, hne⟩ | ⟨hgood, pre, post, d, pre0, hdec, hpre, hd⟩)
    · refine ⟨⟨hne, ?_⟩, [], post, ?_, ?_⟩
      · intro d hd
        rw [hx] at hd
        exact hrun d (by simpa using hd)
      · rw [hdec, hx]
        simp
      · intro d hd
        simp at hd
    · refine ⟨hgood, pre, post, hdec, ?_⟩
      intro e he
      rw [hpre, List.getLast?_concat] at he
      injection he with he2
      rw [← he2]
      exact hd
  · rintro ⟨hgood, pre, post, hdec, hlast⟩
    rcases List.eq_nil_or_concat pre with rfl | ⟨pre0, d, rfl⟩
    · exact Or.inl ⟨x.data, post, by simpa using hdec, hgood.2, by simp, hgood.1⟩
    · refine Or.inr ⟨hgood, pre0.concat d, post, d, pre0, hdec,
        List.concat_eq_append pre0 d, hlast d ?_⟩
      rw [List.concat_eq_append]
      exact List.getLast?_concat _

/-- Claim C7: `extract_source_tables` returns the sorted (by code
point), duplicate-free set of identifiers formed by scanning every
truthy transformation string for word-character runs immediately
followed by a dot (`capturedAt`), unioned across all entries, and on
the claim's example mapping it returns `["customers", "orders"]`. -/
theorem C7_extract_source_tables (ms : List Mapping) (x : String) :
    List.Chain' (fun a b => strLeB a b = true) (extract_source_tables ms) ∧
    (extract_source_tables ms).Nodup ∧
    (x ∈ extract_source_tables ms ↔
      ∃ m ∈ ms, ∃ t, m.transformation = some t ∧ t ≠ "" ∧
        capturedAt t.data x) ∧
    extract_source_tables
      [⟨some "customer_id", some "cust_id", some "orders.id", none, none⟩,
       ⟨some "c", some "d", some "CONCAT(orders.a, customers.b)", none, none⟩] =
      ["customers", "orders"] := by
  refine ⟨?_, ?_, ?_, by decide⟩
  · exact chain_sortStrings _
  · exact nodup_sortStrings _ (List.nodup_dedup _)
  · unfold extract_source_tables sortedDistinct
    rw [mem_sortStrings_iff, List.mem_dedup, mem_tables_foldl]
    simp only [mem_findTableRefs]
    simp

end ETL
